/-
Verification of the Game-of-Life core of this repository: the RLE symbol
decoder and pattern builder (src/parsers.rs) and the toroidal grid engine
(src/lib.rs), shallowly embedded over Nat and List.

Conventions of the embedding:
- Rust `u32` values are modelled as `Nat`; the one place where the 32-bit
  bound is behaviourally relevant (the `parse::<u32>().unwrap()` on a run
  count) is modelled with an explicit `2 ^ 32` check.
- Fallible steps that abort the Rust process (an `unwrap` of a parse error,
  a `BitVec` access out of bounds, `x % 0`, `0u32 - 1` underflow) are
  modelled by `Option`/`PResult` results, with `none` / `.aborted` standing
  for the abort.
- `bit_vec::BitVec` is modelled as `List Bool`; `BitVec::get` is `List.get?`
  and `BitVec::set` checks the index against the length as the crate does.
-/
import Mathlib

set_option maxHeartbeats 1600000

namespace GameOfLife

/-! ## Symbol decoder (src/parsers.rs) -/

/-- The `RleSymbol` enum of src/parsers.rs: `Dollar` is an end-of-row run,
`B` a dead run, `O` an alive run, each carrying its count. -/
inductive RleSymbol where
  | Dollar : Nat → RleSymbol
  | B : Nat → RleSymbol
  | O : Nat → RleSymbol
deriving DecidableEq

/-- Outcome of a nom-style parse step: `ok remaining value`, a recoverable
nom error (`fail`), or a process abort (`aborted`, the image of a Rust
`unwrap` on an overflowing `parse::<u32>`). -/
inductive PResult (α : Type) where
  | ok : List Char → α → PResult α
  | fail : PResult α
  | aborted : PResult α
deriving DecidableEq

/-- Numeric value of a decimal digit string, as `str::parse` computes it. -/
def digitVal (ds : List Char) : Nat :=
  ds.foldl (fun n c => 10 * n + (c.toNat - '0'.toNat)) 0

/-- The `alt` over `char('$')`, `char('b')`, `char('o')` in
`parse_rle_symbol`: reads exactly one tag character or fails. -/
def tagOf (input : List Char) (count : Nat) : PResult RleSymbol :=
  match input with
  | '$' :: rest => .ok rest (.Dollar count)
  | 'b' :: rest => .ok rest (.B count)
  | 'o' :: rest => .ok rest (.O count)
  | _ => .fail

/-- `parse_rle_symbol` of src/parsers.rs: `digit0` reads the (possibly
empty) leading digit run; an empty run means count 1, a non-empty run is
`parse::<u32>().unwrap()` — an abort when the value does not fit in 32
bits — then one tag character is consumed. -/
def parse_rle_symbol (input : List Char) : PResult RleSymbol :=
  let ds := input.takeWhile Char.isDigit
  let rest := input.dropWhile Char.isDigit
  match ds with
  | [] => tagOf rest 1
  | _ :: _ =>
      if digitVal ds < 2 ^ 32 then tagOf rest (digitVal ds)
      else .aborted

/-- The loop of `nom::multi::many1`: repeat `parse_rle_symbol`, stopping
with the unconsumed remainder at the first recoverable failure and
propagating aborts. `fuel` only bounds the recursion; any fuel larger than
the input length is enough, since every `ok` consumes at least the tag
character. -/
def parseAtoms : Nat → List Char → PResult (List RleSymbol)
  | 0, input => .ok input []
  | fuel + 1, input =>
      match parse_rle_symbol input with
      | .aborted => .aborted
      | .fail => .ok input []
      | .ok rest s =>
          match parseAtoms fuel rest with
          | .ok rest' ss => .ok rest' (s :: ss)
          | r => r

/-- `parse_rle_string` of src/parsers.rs: `many1(parse_rle_symbol)` — at
least one symbol must parse, the remainder is returned unconsumed. -/
def parse_rle_string (input : List Char) : PResult (List RleSymbol) :=
  match parseAtoms (input.length + 1) input with
  | .ok rest syms => if syms.isEmpty then .fail else .ok rest syms
  | r => r

/-! ## Pattern builder (src/parsers.rs `grow_pattern`, src/lib.rs `Shape`) -/

/-- `RleSymbol::grow_pattern`: the state is the mutable cursor `offset`
paired with the accumulated `alive_cells`. `B i` advances the cursor,
`O i` pushes the current offset and steps the cursor once per loop
iteration over `offset.0 .. offset.0 + i`, `Dollar i` resets the column
and advances the row. -/
def grow_pattern (s : RleSymbol) (st : (Nat × Nat) × List (Nat × Nat)) :
    (Nat × Nat) × List (Nat × Nat) :=
  match s with
  | .B i => ((st.1.1 + i, st.1.2), st.2)
  | .O i =>
      (List.range' st.1.1 i).foldl
        (fun acc j => ((j + 1, acc.1.2), acc.2 ++ [acc.1])) st
  | .Dollar i => ((0, st.1.2 + i), st.2)

/-- The `Shape` struct of src/lib.rs. -/
structure Shape where
  alive_cells : List (Nat × Nat)
deriving DecidableEq

/-- The loop of `Shape::from_rle_string`: fold `grow_pattern` over the
symbols starting from offset `(0, 0)` and an empty coordinate list. -/
def buildPattern (syms : List RleSymbol) : List (Nat × Nat) :=
  (syms.foldl (fun st s => grow_pattern s st) ((0, 0), [])).2

/-- `Shape::from_rle_string`: `parse_rle_string(..).unwrap().1` — the
`unwrap` turns a nom error into an abort (`none`), the unconsumed
remainder of the parse is discarded, and the symbols are folded into the
coordinate list. -/
def Shape.from_rle_string (rle : List Char) : Option Shape :=
  match parse_rle_string rle with
  | .ok _ syms => some ⟨buildPattern syms⟩
  | _ => none

/-- `Shape::shift`: translate every coordinate. -/
def Shape.shift (s : Shape) (d : Nat × Nat) : Shape :=
  ⟨s.alive_cells.map (fun c => (c.1 + d.1, c.2 + d.2))⟩

/-! ## Grid engine (src/lib.rs `Universe`) -/

/-- The `Universe` struct: `width`, `height`, and the `BitVec` cell store
modelled as a `List Bool`. -/
structure Universe where
  width : Nat
  height : Nat
  cells : List Bool
deriving DecidableEq

/-- `Universe::get_index(row, column) = row * width + column`. -/
def Universe.get_index (u : Universe) (row column : Nat) : Nat :=
  row * u.width + column

/-- `BitVec::set`: writes in place, aborting when the index is out of
bounds (the bit-vec crate panics there). -/
def bvSet (cells : List Bool) (i : Nat) (b : Bool) : Option (List Bool) :=
  if i < cells.length then some (cells.set i b) else none

/-- `Universe::new(height, width)`: all cells dead, store of
`width * height` bits. -/
def Universe.new (height width : Nat) : Universe :=
  ⟨width, height, List.replicate (width * height) false⟩

/-- `Universe::set_width`: replaces the store by a fresh all-dead one of
size `width * height`. -/
def Universe.set_width (u : Universe) (width : Nat) : Universe :=
  ⟨width, u.height, List.replicate (width * u.height) false⟩

/-- `Universe::set_height`: replaces the store by a fresh all-dead one of
size `width * height`. -/
def Universe.set_height (u : Universe) (height : Nat) : Universe :=
  ⟨u.width, height, List.replicate (u.width * height) false⟩

/-- One iteration of the `Universe::set_cells` loop: wrap `x` by `width`
and `y` by `height` (`% 0` aborts, as in Rust), then
`self.cells.set(self.get_index(x_scaled, y_scaled), true)` — note the
source passes `x_scaled` as the `row` argument of `get_index`. -/
def Universe.setCellsStep (u : Universe) (xy : Nat × Nat) : Option Universe :=
  if u.width = 0 ∨ u.height = 0 then none
  else
    let x_scaled := xy.1 % u.width
    let y_scaled := xy.2 % u.height
    match bvSet u.cells (u.get_index x_scaled y_scaled) true with
    | some cs => some ⟨u.width, u.height, cs⟩
    | none => none

/-- `Universe::set_cells`: the loop over the coordinate list. -/
def Universe.set_cells (u : Universe) (l : List (Nat × Nat)) : Option Universe :=
  l.foldlM Universe.setCellsStep u

/-- `Universe::live_neighbor_count`: the two loops over the delta arrays
`[height - 1, 0, 1]` and `[width - 1, 0, 1]`, skipping an iteration when
both delta values are zero, reading the wrapped neighbor through
`.get(idx).unwrap()`. With a zero dimension the Rust code aborts
(`0u32 - 1` underflow / `% 0`), modelled by the leading guard. -/
def Universe.live_neighbor_count (u : Universe) (row column : Nat) : Option Nat :=
  if u.height = 0 ∨ u.width = 0 then none
  else
    [u.height - 1, 0, 1].foldlM (fun count delta_row =>
      [u.width - 1, 0, 1].foldlM (fun count delta_col =>
        if delta_row == 0 && delta_col == 0 then
          some count
        else
          match u.cells.get? (u.get_index ((row + delta_row) % u.height)
              ((column + delta_col) % u.width)) with
          | some cell => some (if cell then count + 1 else count)
          | none => none) count) 0

/-- The `match (cell, live_neighbor_count)` of `Universe::tick`, in source
order: underpopulation, survival, overpopulation, reproduction, otherwise
unchanged. -/
def tickCell (cell : Bool) (n : Nat) : Bool :=
  if cell = true ∧ n < 2 then false
  else if cell = true ∧ (n = 2 ∨ n = 3) then true
  else if cell = true ∧ n > 3 then false
  else if cell = false ∧ n = 3 then true
  else cell

/-- The body of the `tick` double loop for one `(row, col)` pair: read the
old cell (`.get(idx).unwrap()`), count the live neighbors, and write the
transition into the `next` buffer. -/
def Universe.tickStep (u : Universe) (next : List Bool) (rc : Nat × Nat) :
    Option (List Bool) := do
  let idx := u.get_index rc.1 rc.2
  let cell ← u.cells.get? idx
  let n ← u.live_neighbor_count rc.1 rc.2
  bvSet next idx (tickCell cell n)

/-- The row-major `(row, col)` iteration order of the `tick` loops. -/
def Universe.tickPairs (u : Universe) : List (Nat × Nat) :=
  (List.range u.height).flatMap fun row =>
    (List.range u.width).map fun col => (row, col)

/-- `Universe::tick`: clone the store into `next`, run the double loop,
then replace the store. -/
def Universe.tick (u : Universe) : Option Universe := do
  let next ← u.tickPairs.foldlM (u.tickStep) u.cells
  pure ⟨u.width, u.height, next⟩

/-- `Universe::set_rle_shape`: decode, shift, seed. -/
def Universe.set_rle_shape (u : Universe) (rle : List Char) (x y : Nat) :
    Option Universe :=
  match Shape.from_rle_string rle with
  | some s => u.set_cells ((s.shift (x, y)).alive_cells)
  | none => none

/-! ## Definitions modelled from the spec's words, for refinement claims -/

/-- Modelled from the spec: the linear index the spec assigns to a seeded
coordinate — wrap into range, then address the row-major store by
`row * width + column` with `y` the row and `x` the column. -/
def specSeedIndex (u : Universe) (x y : Nat) : Nat :=
  (y % u.height) * u.width + (x % u.width)

/-- Numeric value of a cell for counting. -/
def b2n (b : Bool) : Nat := if b then 1 else 0

/-- Modelled from the spec: the 8-neighbor toroidal live count — row and
column offsets −1, 0, +1 with `(dimension − 1)` in place of −1, the
center offset pair excluded, each of the eight wrapped neighbors read from
the store (out-of-range reads as dead, which cannot occur on a grid whose
store length is `width * height`). -/
def specNeighborCount (u : Universe) (row column : Nat) : Nat :=
  b2n (u.cells.getD (u.get_index ((row + (u.height - 1)) % u.height)
    ((column + (u.width - 1)) % u.width)) false) +
  b2n (u.cells.getD (u.get_index ((row + (u.height - 1)) % u.height)
    ((column + 0) % u.width)) false) +
  b2n (u.cells.getD (u.get_index ((row + (u.height - 1)) % u.height)
    ((column + 1) % u.width)) false) +
  b2n (u.cells.getD (u.get_index ((row + 0) % u.height)
    ((column + (u.width - 1)) % u.width)) false) +
  b2n (u.cells.getD (u.get_index ((row + 0) % u.height)
    ((column + 1) % u.width)) false) +
  b2n (u.cells.getD (u.get_index ((row + 1) % u.height)
    ((column + (u.width - 1)) % u.width)) false) +
  b2n (u.cells.getD (u.get_index ((row + 1) % u.height)
    ((column + 0) % u.width)) false) +
  b2n (u.cells.getD (u.get_index ((row + 1) % u.height)
    ((column + 1) % u.width)) false)

/-! ## Helper lemmas -/

lemma get?_eq_some_getD {l : List Bool} {i : Nat} (h : i < l.length) :
    l.get? i = some (l.getD i false) := by
  rw [List.getD_eq_get?]
  cases h' : l.get? i with
  | none => exact absurd (List.get?_eq_none.mp h') (by omega)
  | some b => rfl

lemma get_index_lt (u : Universe) (hlen : u.cells.length = u.width * u.height)
    {r c : Nat} (hr : r < u.height) (hc : c < u.width) :
    u.get_index r c < u.cells.length := by
  unfold Universe.get_index
  rw [hlen]
  calc r * u.width + c < r * u.width + u.width := by omega
    _ = (r + 1) * u.width := by ring
    _ ≤ u.height * u.width := Nat.mul_le_mul_right _ hr
    _ = u.width * u.height := Nat.mul_comm _ _

lemma index_div {w : Nat} (r : Nat) {c : Nat} (hc : c < w) :
    (r * w + c) / w = r := by
  rw [Nat.mul_comm, Nat.mul_add_div (by omega)]
  simp [Nat.div_eq_of_lt hc]

lemma index_mod {w : Nat} (r : Nat) {c : Nat} (hc : c < w) :
    (r * w + c) % w = c := by
  rw [Nat.mul_comm, Nat.mul_add_mod]
  exact Nat.mod_eq_of_lt hc

lemma replicate_get? {a : Bool} : ∀ {n i : Nat}, i < n →
    (List.replicate n a).get? i = some a := by
  intro n
  induction n with
  | zero => intro i h; omega
  | succ n ih =>
      intro i h
      cases i with
      | zero => rfl
      | succ i => simpa [List.replicate_succ] using ih (by omega)

lemma grow_O_fold (n : Nat) : ∀ (x y : Nat) (acc : List (Nat × Nat)),
    (List.range' x n).foldl
        (fun acc j => ((j + 1, acc.1.2), acc.2 ++ [acc.1])) ((x, y), acc) =
      ((x + n, y), acc ++ (List.range' x n).map (fun i => (i, y))) := by
  induction n with
  | zero => intro x y acc; simp
  | succ n ih =>
      intro x y acc
      rw [List.range'_succ]
      simp only [List.foldl_cons]
      rw [ih (x + 1) y (acc ++ [(x, y)])]
      simp [List.range'_succ]
      omega

/-! ## Claim theorems -/

/-- C2 (code bug): `set_cells` passes the wrapped `x` as the `row`
argument of `get_index`, so it addresses the store at
`(x % width) * width + (y % height)`, not at the spec's row-major
`(y % height) * width + (x % width)`. On the width-2, height-3 grid the
coordinate `(1, 2)` is stored at linear index 4, while the spec index is
5. -/
theorem set_cells_transposes_index :
    Universe.set_cells ⟨2, 3, List.replicate 6 false⟩ [(1, 2)] =
      some ⟨2, 3, [false, false, false, false, true, false]⟩ ∧
    specSeedIndex ⟨2, 3, List.replicate 6 false⟩ 1 2 = 5 := by
  constructor
  · decide
  · decide

/-- C5 (code bug): grid operations can abort. On the width-2, height-1
grid, seeding the in-range coordinate `(1, 0)` computes the transposed
index `(1 % 2) * 2 + 0 = 2`, out of bounds for the 2-bit store, and
`BitVec::set` aborts; on a zero-width grid a non-empty seed list aborts at
`x % 0`. `tick` on a degenerate grid is a no-op, as the claim says. -/
theorem set_cells_can_abort :
    Universe.set_cells ⟨2, 1, [false, false]⟩ [(1, 0)] = none ∧
    Universe.set_cells ⟨0, 5, []⟩ [(1, 1)] = none ∧
    Universe.tick ⟨0, 5, []⟩ = some ⟨0, 5, []⟩ ∧
    Universe.tick ⟨5, 0, []⟩ = some ⟨5, 0, []⟩ := by
  refine ⟨by decide, by decide, by decide, by decide⟩

/-- C3 counterexample: on the malformed pattern `"3x"` the seeding
operation does not return a recoverable `MalformedPattern` value — the
`unwrap` in `Shape::from_rle_string` aborts the process (modelled by
`none`; the Rust signature `set_rle_shape(&mut self, ...)` has no failure
channel at all). -/
theorem set_rle_shape_malformed_aborts_cex :
    Universe.set_rle_shape ⟨2, 2, [false, false, false, false]⟩
      ("3x".toList) 0 0 = none := by decide

/-- C3 amended: a malformed pattern with no leading valid atom (such as
`"3x"`, or `"3"` which ends in a digit run with no tag) makes
`set_rle_shape` abort via the `unwrap` of the nom error rather than
return a failure value; the abort happens before any grid mutation, so no
partial seeding occurs on any grid. The decoder itself fails recoverably
(`.fail`); it is `from_rle_string` that turns this into an abort. -/
theorem set_rle_shape_malformed_aborts (u : Universe) (x y : Nat) :
    Universe.set_rle_shape u ("3x".toList) x y = none ∧
    Universe.set_rle_shape u ("3".toList) x y = none ∧
    parse_rle_string ("3x".toList) = .fail ∧
    parse_rle_string ("3".toList) = .fail ∧
    Shape.from_rle_string ("3x".toList) = none := ⟨rfl, rfl, rfl, rfl, rfl⟩

/-- C6 (confirmed): the pattern builder's symbol semantics — `B n`
advances the cursor column by `n` emitting nothing, `O n` emits the `n`
consecutive coordinates starting at the cursor and advances the column by
`n`, `Dollar n` resets the column and advances the row by `n` — and
decoding `"2bobo23$4b2o"` yields exactly
`[(2,0), (4,0), (4,23), (5,23)]`. -/
theorem grow_pattern_semantics :
    (∀ (n x y : Nat) (acc : List (Nat × Nat)),
      grow_pattern (.B n) ((x, y), acc) = ((x + n, y), acc)) ∧
    (∀ (n x y : Nat) (acc : List (Nat × Nat)),
      grow_pattern (.O n) ((x, y), acc) =
        ((x + n, y), acc ++ (List.range' x n).map (fun i => (i, y)))) ∧
    (∀ (n x y : Nat) (acc : List (Nat × Nat)),
      grow_pattern (.Dollar n) ((x, y), acc) = ((0, y + n), acc)) ∧
    Shape.from_rle_string ("2bobo23$4b2o".toList) =
      some ⟨[(2, 0), (4, 0), (4, 23), (5, 23)]⟩ := by
  refine ⟨fun n x y acc => rfl, fun n x y acc => ?_, fun n x y acc => rfl,
    by decide⟩
  simpa [grow_pattern] using grow_O_fold n x y acc

/-- C7 counterexample: on the 1×1 grid whose sole cell is alive, the
live-neighbor count is 5, not the 0 the claim states — the code excludes
only the delta-value pair `(0, 0)`, and the five surviving delta pairs
all wrap back onto the cell itself, so the alive cell is counted five
times. -/
theorem single_cell_neighbor_count_five :
    Universe.live_neighbor_count ⟨1, 1, [true]⟩ 0 0 = some 5 := by decide

/-- C7 amended: on a dimension-1 axis every delta offset wraps onto the
same single row (resp. column); on the 1×1 grid the live-neighbor count
of the sole cell is 0 when it is dead but 5 when it is alive, because the
value-based skip removes four of the nine delta pairs and each remaining
pair re-reads the cell itself. -/
theorem degenerate_wrap_semantics :
    (∀ (u : Universe) (row dr : Nat), u.height = 1 →
      dr ∈ [u.height - 1, 0, 1] → (row + dr) % u.height = 0) ∧
    (∀ (u : Universe) (col dc : Nat), u.width = 1 →
      dc ∈ [u.width - 1, 0, 1] → (col + dc) % u.width = 0) ∧
    (∀ b : Bool, Universe.live_neighbor_count ⟨1, 1, [b]⟩ 0 0 =
      some (if b then 5 else 0)) := by
  refine ⟨?_, ?_, ?_⟩
  · intro u row dr h1 _
    rw [h1]
    exact Nat.mod_one _
  · intro u col dc h1 _
    rw [h1]
    exact Nat.mod_one _
  · intro b
    cases b <;> decide

/-- Witness for C7's amended theorem at the 1×1 alive grid. -/
theorem degenerate_wrap_semantics_witness :
    (5 + 1) % (⟨1, 1, [true]⟩ : Universe).height = 0 ∧
    Universe.live_neighbor_count ⟨1, 1, [true]⟩ 0 0 = some 5 := by
  refine ⟨degenerate_wrap_semantics.1 ⟨1, 1, [true]⟩ 5 1 rfl (by decide), ?_⟩
  simpa using degenerate_wrap_semantics.2.2 true

/-- C8 (confirmed): `set_width` keeps the height, installs the new width,
and reallocates an all-dead store of the new `width * height` size;
`set_height` symmetrically. No cell state is carried over. -/
theorem resize_clears_cells (u : Universe) (w h : Nat) :
    (u.set_width w).height = u.height ∧ (u.set_width w).width = w ∧
    (u.set_width w).cells.length = w * u.height ∧
    (∀ i, i < (u.set_width w).cells.length →
      (u.set_width w).cells.get? i = some false) ∧
    (u.set_height h).width = u.width ∧ (u.set_height h).height = h ∧
    (u.set_height h).cells.length = u.width * h ∧
    (∀ i, i < (u.set_height h).cells.length →
      (u.set_height h).cells.get? i = some false) := by
  refine ⟨rfl, rfl, by simp [Universe.set_width], ?_, rfl, rfl,
    by simp [Universe.set_height], ?_⟩
  · intro i hi
    exact replicate_get? (by simpa [Universe.set_width] using hi)
  · intro i hi
    exact replicate_get? (by simpa [Universe.set_height] using hi)

/-! ## Parser lemmas for C4 and C10 -/

/-- The symbol an atom `(digits, tag)` denotes. -/
def mkSym (t : Char) (n : Nat) : RleSymbol :=
  if t = '$' then .Dollar n else if t = 'b' then .B n else .O n

/-- An atom of the RLE grammar `digits? tag`: a possibly empty digit run
whose value fits `u32`, followed by one of the three tag characters. -/
def validAtom (a : List Char × Char) : Prop :=
  (∀ c ∈ a.1, c.isDigit = true) ∧ (a.2 = '$' ∨ a.2 = 'b' ∨ a.2 = 'o') ∧
    digitVal a.1 < 2 ^ 32

instance (a : List Char × Char) : Decidable (validAtom a) := by
  unfold validAtom
  infer_instance

/-- The symbol an atom decodes to, with the default count 1 for an empty
digit run. -/
def atomSym (a : List Char × Char) : RleSymbol :=
  mkSym a.2 (if a.1.isEmpty then 1 else digitVal a.1)

/-- Concatenation of a list of atoms back into an input string. -/
def renderAtoms (l : List (List Char × Char)) : List Char :=
  l.flatMap (fun a => a.1 ++ [a.2])

lemma tagOf_tag {t : Char} (rest : List Char)
    (ht : t = '$' ∨ t = 'b' ∨ t = 'o') (n : Nat) :
    tagOf (t :: rest) n = .ok rest (mkSym t n) := by
  rcases ht with h | h | h <;> subst h <;> rfl

lemma takeWhile_digits_append {ds : List Char} {t : Char} (rest : List Char)
    (hds : ∀ c ∈ ds, c.isDigit = true) (ht : t.isDigit = false) :
    (ds ++ t :: rest).takeWhile Char.isDigit = ds ∧
    (ds ++ t :: rest).dropWhile Char.isDigit = t :: rest := by
  induction ds with
  | nil => simp [List.takeWhile_cons, List.dropWhile_cons, ht]
  | cons d ds ih =>
      have hd : d.isDigit = true := hds d (by simp)
      have h' := ih (fun c hc => hds c (by simp [hc]))
      simp [List.takeWhile_cons, List.dropWhile_cons, hd, h'.1, h'.2]

lemma parse_symbol_atom {ds : List Char} {t : Char} (rest : List Char)
    (hds : ∀ c ∈ ds, c.isDigit = true)
    (ht : t = '$' ∨ t = 'b' ∨ t = 'o') :
    parse_rle_symbol (ds ++ t :: rest) =
      if digitVal ds < 2 ^ 32 then
        .ok rest (mkSym t (if ds.isEmpty then 1 else digitVal ds))
      else .aborted := by
  have htd : t.isDigit = false := by
    rcases ht with h | h | h <;> subst h <;> decide
  obtain ⟨h1, h2⟩ := takeWhile_digits_append rest hds htd
  cases ds with
  | nil =>
      have h0 : digitVal ([] : List Char) = 0 := rfl
      unfold parse_rle_symbol
      simp only [h1, h2]
      rw [tagOf_tag rest ht 1]
      simp [h0]
  | cons d ds' =>
      unfold parse_rle_symbol
      simp only [h1, h2]
      split
      · rw [tagOf_tag rest ht (digitVal (d :: ds'))]
        simp
      · rfl

lemma tagOf_ok {input rest : List Char} {n : Nat} {s : RleSymbol}
    (h : tagOf input n = .ok rest s) : rest.length < input.length := by
  unfold tagOf at h
  split at h <;> simp_all

lemma parse_symbol_ok_length {input rest : List Char} {s : RleSymbol}
    (h : parse_rle_symbol input = .ok rest s) : rest.length < input.length := by
  have hd : (input.dropWhile Char.isDigit).length ≤ input.length :=
    (List.dropWhile_sublist _).length_le
  unfold parse_rle_symbol at h
  cases htw : input.takeWhile Char.isDigit with
  | nil =>
      rw [htw] at h
      dsimp only at h
      exact lt_of_lt_of_le (tagOf_ok h) hd
  | cons d ds =>
      rw [htw] at h
      dsimp only at h
      split at h
      · exact lt_of_lt_of_le (tagOf_ok h) hd
      · exact absurd h (by simp)

lemma parseAtoms_fuel : ∀ (f g : Nat) (input : List Char),
    input.length < f → input.length < g →
    parseAtoms f input = parseAtoms g input := by
  intro f
  induction f with
  | zero => intro g input h _; omega
  | succ f ih =>
      intro g input hf hg
      cases g with
      | zero => omega
      | succ g =>
          simp only [parseAtoms]
          cases hs : parse_rle_symbol input with
          | aborted => rfl
          | fail => rfl
          | ok rest s =>
              have hlt := parse_symbol_ok_length hs
              dsimp only
              rw [ih g rest (by omega) (by omega)]

lemma renderAtoms_cons (a : List Char × Char) (l : List (List Char × Char)) :
    renderAtoms (a :: l) = a.1 ++ a.2 :: renderAtoms l := by
  simp [renderAtoms]

lemma parseAtoms_render : ∀ (l : List (List Char × Char)) (fuel : Nat),
    (renderAtoms l).length < fuel → (∀ a ∈ l, validAtom a) →
    parseAtoms fuel (renderAtoms l) = .ok [] (l.map atomSym) := by
  intro l
  induction l with
  | nil =>
      intro fuel hf _
      cases fuel with
      | zero => omega
      | succ f => rfl
  | cons a l ih =>
      intro fuel hf hv
      have hva := hv a (by simp)
      have hlen : (renderAtoms (a :: l)).length =
          a.1.length + (renderAtoms l).length + 1 := by
        simp [renderAtoms_cons]
        omega
      cases fuel with
      | zero => omega
      | succ f =>
          rw [renderAtoms_cons]
          simp only [parseAtoms]
          rw [parse_symbol_atom (renderAtoms l) hva.1 hva.2.1,
            if_pos hva.2.2]
          dsimp only
          rw [parseAtoms_fuel f ((renderAtoms l).length + 1) (renderAtoms l)
            (by omega) (by omega)]
          rw [ih ((renderAtoms l).length + 1) (by omega)
            (fun b hb => hv b (by simp [hb]))]
          rfl

/-- C4 counterexample: the input `"ox"` contains the invalid character
`'x'`, yet decoding succeeds — `many1` stops at the first failure and
`from_rle_string` discards the unconsumed remainder, so the valid prefix
`"o"` is decoded instead of the whole input hard-failing. -/
theorem decode_trailing_garbage_succeeds :
    Shape.from_rle_string ("ox".toList) = some ⟨[(0, 0)]⟩ := by decide

/-- C4 amended: decoding consumes the longest valid prefix of atoms and
returns the unconsumed remainder; trailing garbage after at least one
valid atom is silently ignored rather than a hard failure (only an input
with no leading valid atom fails, and that failure is an abort through
`unwrap`, see C3); for an input that is entirely atoms the decoded
symbols are exactly its atoms in order with nothing left over. -/
theorem decode_truncates_garbage :
    Shape.from_rle_string ("ox".toList) = some ⟨[(0, 0)]⟩ ∧
    parse_rle_string ("ox".toList) = .ok ['x'] [.O 1] ∧
    ∀ l : List (List Char × Char), l ≠ [] → (∀ a ∈ l, validAtom a) →
      parse_rle_string (renderAtoms l) = .ok [] (l.map atomSym) := by
  refine ⟨by decide, by decide, ?_⟩
  intro l hne hv
  unfold parse_rle_string
  rw [parseAtoms_render l ((renderAtoms l).length + 1) (by omega) hv]
  cases l with
  | nil => exact absurd rfl hne
  | cons a l => rfl

/-- Witness for C4's amended theorem: the two atoms `o` and `2b` parse to
exactly their symbols with nothing left over. -/
theorem decode_truncates_garbage_witness :
    parse_rle_string ('o' :: '2' :: 'b' :: []) = .ok [] [.O 1, .B 2] :=
  (decode_truncates_garbage.2.2 [([], 'o'), (['2'], 'b')] (by decide)
    (by decide)).trans (by decide)

/-- C10 (confirmed): a decoded run count is the exact value of its digit
run when that value fits in 32 bits (1 for an empty run), but a
grammar-valid digit run denoting a value above `2^32 − 1` makes the
decoder abort — `parse::<u32>().unwrap()` — instead of returning a parse
result or error. -/
theorem parse_count_u32_bounds {ds : List Char} {t : Char} (rest : List Char)
    (hds : ∀ c ∈ ds, c.isDigit = true)
    (ht : t = '$' ∨ t = 'b' ∨ t = 'o') :
    (digitVal ds ≤ 2 ^ 32 - 1 →
      parse_rle_symbol (ds ++ t :: rest) =
        .ok rest (mkSym t (if ds.isEmpty then 1 else digitVal ds))) ∧
    (2 ^ 32 - 1 < digitVal ds →
      parse_rle_symbol (ds ++ t :: rest) = .aborted) := by
  have hpow : (2 : Nat) ^ 32 = 4294967296 := by norm_num
  constructor
  · intro hle
    rw [parse_symbol_atom rest hds ht, if_pos (by omega)]
  · intro hgt
    rw [parse_symbol_atom rest hds ht, if_neg (by omega)]

/-- Witness for C10: the count 4294967296 = 2^32 aborts the decoder, the
count 17 is returned exactly. -/
theorem parse_count_u32_bounds_witness :
    parse_rle_symbol ("4294967296b".toList) = .aborted ∧
    parse_rle_symbol ("17o".toList) = .ok [] (.O 17) := by
  constructor
  · exact (@parse_count_u32_bounds "4294967296".toList 'b' [] (by decide)
      (by decide)).2 (by decide)
  · exact ((@parse_count_u32_bounds "17".toList 'o' [] (by decide)
      (by decide)).1 (by decide)).trans (by decide)

/-! ## The tick theorem (C1) -/

lemma ite_add_b2n (b : Bool) (c : Nat) :
    (if b = true then c + 1 else c) = c + b2n b := by
  cases b <;> simp [b2n]

lemma getElem?_isSome {l : List Bool} {i : Nat} (h : i < l.length) :
    ∃ b, l[i]? = some b := by
  cases h' : l[i]? with
  | none =>
      rw [List.getElem?_eq_none_iff] at h'
      omega
  | some b => exact ⟨b, rfl⟩

lemma live_neighbor_count_eq_spec (u : Universe)
    (hh : 2 ≤ u.height) (hw : 2 ≤ u.width)
    (hlen : u.cells.length = u.width * u.height)
    (row col : Nat) :
    u.live_neighbor_count row col = some (specNeighborCount u row col) := by
  have h0 : ¬(u.height = 0 ∨ u.width = 0) := by omega
  have eh2 : ¬(u.height - 1 = 0) := by omega
  have ew2 : ¬(u.width - 1 = 0) := by omega
  have hb : ∀ r c : Nat, r < u.height → c < u.width →
      u.get_index r c < u.cells.length :=
    fun r c hr' hc' => get_index_lt u hlen hr' hc'
  have hmh1 : (row + (u.height - 1)) % u.height < u.height :=
    Nat.mod_lt _ (by omega)
  have hmh2 : row % u.height < u.height := Nat.mod_lt _ (by omega)
  have hmh3 : (row + 1) % u.height < u.height := Nat.mod_lt _ (by omega)
  have hmw1 : (col + (u.width - 1)) % u.width < u.width :=
    Nat.mod_lt _ (by omega)
  have hmw2 : col % u.width < u.width := Nat.mod_lt _ (by omega)
  have hmw3 : (col + 1) % u.width < u.width := Nat.mod_lt _ (by omega)
  obtain ⟨b1, g1⟩ := getElem?_isSome (hb _ _ hmh1 hmw1)
  obtain ⟨b2, g2⟩ := getElem?_isSome (hb _ _ hmh1 hmw2)
  obtain ⟨b3, g3⟩ := getElem?_isSome (hb _ _ hmh1 hmw3)
  obtain ⟨b4, g4⟩ := getElem?_isSome (hb _ _ hmh2 hmw1)
  obtain ⟨b5, g5⟩ := getElem?_isSome (hb _ _ hmh2 hmw3)
  obtain ⟨b6, g6⟩ := getElem?_isSome (hb _ _ hmh3 hmw1)
  obtain ⟨b7, g7⟩ := getElem?_isSome (hb _ _ hmh3 hmw2)
  obtain ⟨b8, g8⟩ := getElem?_isSome (hb _ _ hmh3 hmw3)
  unfold Universe.live_neighbor_count specNeighborCount
  rw [if_neg h0]
  simp [List.foldlM_cons, List.foldlM_nil, eh2, ew2, ite_add_b2n,
    g1, g2, g3, g4, g5, g6, g7, g8]

lemma get?_set_self {l : List Bool} {i : Nat} {b : Bool} (h : i < l.length) :
    (l.set i b).get? i = some b := by
  rw [List.get?_set, if_pos rfl, get?_eq_some_getD h]
  rfl

lemma get?_set_other {l : List Bool} {i j : Nat} {b : Bool} (h : i ≠ j) :
    (l.set i b).get? j = l.get? j := by
  rw [List.get?_set, if_neg h]

lemma get_index_div (u : Universe) (r : Nat) {c : Nat} (hc : c < u.width) :
    u.get_index r c / u.width = r := by
  unfold Universe.get_index
  exact index_div r hc

lemma get_index_mod (u : Universe) (r : Nat) {c : Nat} (hc : c < u.width) :
    u.get_index r c % u.width = c := by
  unfold Universe.get_index
  exact index_mod r hc

lemma tick_loop (u : Universe) (hlen : u.cells.length = u.width * u.height)
    (hcnt : ∀ r c : Nat, r < u.height → c < u.width →
      u.live_neighbor_count r c = some (specNeighborCount u r c)) :
    ∀ (L : List (Nat × Nat)) (acc : List Bool),
      acc.length = u.cells.length →
      (∀ p ∈ L, p.1 < u.height ∧ p.2 < u.width) →
      ∃ acc', List.foldlM (u.tickStep) acc L = some acc' ∧
        acc'.length = acc.length ∧
        ∀ i : Nat,
          acc'.get? i =
            if L.any (fun p => u.get_index p.1 p.2 == i) then
              some (tickCell (u.cells.getD i false)
                (specNeighborCount u (i / u.width) (i % u.width)))
            else acc.get? i := by
  intro L
  induction L with
  | nil =>
      intro acc hacc _
      exact ⟨acc, rfl, rfl, fun i => by simp⟩
  | cons p L ih =>
      intro acc hacc hmem
      obtain ⟨hp1, hp2⟩ := hmem p (by simp)
      have hidxc : u.get_index p.1 p.2 < u.cells.length :=
        get_index_lt u hlen hp1 hp2
      have hidxa : u.get_index p.1 p.2 < acc.length := by omega
      have hstep : u.tickStep acc p =
          some (acc.set (u.get_index p.1 p.2)
            (tickCell (u.cells.getD (u.get_index p.1 p.2) false)
              (specNeighborCount u p.1 p.2))) := by
        unfold Universe.tickStep
        dsimp only
        rw [get?_eq_some_getD hidxc, hcnt p.1 p.2 hp1 hp2]
        simp [bvSet, hidxa]
      obtain ⟨acc', hfold, hlen', hpt⟩ :=
        ih (acc.set (u.get_index p.1 p.2)
            (tickCell (u.cells.getD (u.get_index p.1 p.2) false)
              (specNeighborCount u p.1 p.2)))
          (by rw [List.length_set]; exact hacc)
          (fun q hq => hmem q (by simp [hq]))
      refine ⟨acc', ?_, by rw [hlen', List.length_set], ?_⟩
      · rw [List.foldlM_cons, hstep]
        simpa using hfold
      · intro i
        rw [hpt i]
        by_cases hany : (L.any fun q => u.get_index q.1 q.2 == i) = true
        · simp [List.any_cons, hany]
        · by_cases hi : u.get_index p.1 p.2 = i
          · subst hi
            rw [if_neg hany, if_pos (by simp [List.any_cons, hany])]
            rw [get?_set_self hidxa]
            rw [get_index_div u p.1 hp2, get_index_mod u p.1 hp2]
          · rw [if_neg hany, if_neg (by simp [List.any_cons, hany, hi]),
              get?_set_other hi]

lemma mem_tickPairs (u : Universe) (p : Nat × Nat) :
    p ∈ u.tickPairs ↔ p.1 < u.height ∧ p.2 < u.width := by
  cases p with
  | mk r c =>
      simp [Universe.tickPairs, List.mem_flatMap, List.mem_range,
        List.mem_map]

/-- C1 amended: for every grid with width ≥ 2 and height ≥ 2 whose store
has the invariant length, `tick` succeeds and replaces each cell by the
Life rule applied to the cell's old state and the 8-neighbor toroidal
live count of the previous generation (the spec-side
`specNeighborCount`). The old store is read throughout, so the update is
computed from the previous generation only. Grids with a dimension equal
to 1 are excluded: there the code's value-based skip departs from the
8-neighbor count (see the counterexample and C7). -/
theorem tick_applies_life_rule (u : Universe)
    (hh : 2 ≤ u.height) (hw : 2 ≤ u.width)
    (hlen : u.cells.length = u.width * u.height) :
    ∃ u', u.tick = some u' ∧ u'.width = u.width ∧ u'.height = u.height ∧
      u'.cells.length = u.cells.length ∧
      ∀ row col, row < u.height → col < u.width →
        u'.cells.get? (row * u.width + col) =
          some (tickCell (u.cells.getD (row * u.width + col) false)
            (specNeighborCount u row col)) := by
  have hcnt : ∀ r c, r < u.height → c < u.width →
      u.live_neighbor_count r c = some (specNeighborCount u r c) :=
    fun r c _ _ => live_neighbor_count_eq_spec u hh hw hlen r c
  obtain ⟨acc', hfold, hlen', hpt⟩ :=
    tick_loop u hlen hcnt u.tickPairs u.cells rfl
      (fun p hp => (mem_tickPairs u p).mp hp)
  refine ⟨⟨u.width, u.height, acc'⟩, ?_, rfl, rfl, hlen', ?_⟩
  · unfold Universe.tick
    rw [hfold]
    rfl
  · intro row col hrow hcol
    have hmem2 : (u.tickPairs.any
        fun p => u.get_index p.1 p.2 == (row * u.width + col)) = true := by
      rw [List.any_eq_true]
      exact ⟨(row, col), (mem_tickPairs u (row, col)).mpr ⟨hrow, hcol⟩,
        by simp [Universe.get_index]⟩
    have h := hpt (row * u.width + col)
    rw [if_pos hmem2] at h
    rw [index_div row hcol, index_mod row hcol] at h
    exact h

/-- Witness for C1's amended theorem at the 2×2 grid seeded on the
diagonal. -/
theorem tick_applies_life_rule_witness :
    ∃ u', (⟨2, 2, [true, false, false, true]⟩ : Universe).tick = some u' ∧
      u'.width = 2 ∧ u'.height = 2 ∧ u'.cells.length = 4 ∧
      ∀ row col, row < 2 → col < 2 →
        u'.cells.get? (row * 2 + col) =
          some (tickCell
            ((⟨2, 2, [true, false, false, true]⟩ : Universe).cells.getD
              (row * 2 + col) false)
            (specNeighborCount ⟨2, 2, [true, false, false, true]⟩ row col)) :=
  tick_applies_life_rule ⟨2, 2, [true, false, false, true]⟩ (by decide)
    (by decide) (by decide)

/-- C1 counterexample: on the width-2, height-1 grid `[alive, dead]` the
claim's rule applied to the 8-neighbor toroidal count would keep the
alive cell (its spec count is 2), but `tick` kills it — with height 1 the
value-based skip drops two delta pairs, the code reads only 6 neighbors
for this cell and counts 1. The claim is false for grids with a
dimension equal to 1 even though both are within its stated bounds. -/
theorem tick_one_row_counterexample :
    Universe.tick ⟨2, 1, [true, false]⟩ = some ⟨2, 1, [false, false]⟩ ∧
    tickCell ((⟨2, 1, [true, false]⟩ : Universe).cells.getD 0 false)
      (specNeighborCount ⟨2, 1, [true, false]⟩ 0 0) = true := by
  constructor
  · decide
  · decide

/-- Witness for C8 at a concrete grid: resizing the all-alive 1×3 grid to
width 2 clears the surviving cells. -/
theorem resize_clears_cells_witness :
    ((⟨3, 1, [true, true, true]⟩ : Universe).set_width 2).cells.get? 1 =
      some false :=
  (resize_clears_cells ⟨3, 1, [true, true, true]⟩ 2 0).2.2.2.1 1 (by decide)

/-! ## The store-length invariant (C9) -/

/-- A call on the grid's public mutating interface. -/
inductive GridOp where
  | setW : Nat → GridOp
  | setH : Nat → GridOp
  | seed : List (Nat × Nat) → GridOp
  | step : GridOp
deriving DecidableEq

/-- Run one grid operation; `none` models an abort inside the call. -/
def applyOp (u : Universe) : GridOp → Option Universe
  | .setW w => some (u.set_width w)
  | .setH h => some (u.set_height h)
  | .seed l => u.set_cells l
  | .step => u.tick

/-- Run a sequence of grid operations. -/
def runOps (u : Universe) (ops : List GridOp) : Option Universe :=
  ops.foldlM applyOp u

lemma setCellsStep_some {u u' : Universe} {p : Nat × Nat}
    (h : u.setCellsStep p = some u') :
    u'.width = u.width ∧ u'.height = u.height ∧
      u'.cells.length = u.cells.length := by
  unfold Universe.setCellsStep at h
  split at h
  · exact absurd h (by simp)
  · dsimp only at h
    cases hset : bvSet u.cells
        (u.get_index (p.1 % u.width) (p.2 % u.height)) true with
    | none => rw [hset] at h; exact absurd h (by simp)
    | some cs =>
        rw [hset] at h
        unfold bvSet at hset
        split at hset
        · cases h
          cases hset
          exact ⟨rfl, rfl, by simp [List.length_set]⟩
        · exact absurd hset (by simp)

lemma set_cells_some : ∀ {l : List (Nat × Nat)} {u u' : Universe},
    u.set_cells l = some u' →
    u'.width = u.width ∧ u'.height = u.height ∧
      u'.cells.length = u.cells.length := by
  intro l
  induction l with
  | nil =>
      intro u u' h
      cases h
      exact ⟨rfl, rfl, rfl⟩
  | cons p l ih =>
      intro u u' h
      unfold Universe.set_cells at h
      rw [List.foldlM_cons] at h
      cases hstep : u.setCellsStep p with
      | none => rw [hstep] at h; exact absurd h (by simp)
      | some u₁ =>
          rw [hstep] at h
          obtain ⟨e1, e2, e3⟩ := setCellsStep_some hstep
          obtain ⟨f1, f2, f3⟩ := ih (by simpa using h)
          exact ⟨f1.trans e1, f2.trans e2, f3.trans e3⟩

lemma tickStep_some {u : Universe} {acc acc' : List Bool} {p : Nat × Nat}
    (h : u.tickStep acc p = some acc') : acc'.length = acc.length := by
  unfold Universe.tickStep at h
  dsimp only at h
  cases h1 : u.cells.get? (u.get_index p.1 p.2) with
  | none => rw [h1] at h; exact absurd h (by simp)
  | some cell =>
      rw [h1] at h
      cases h2 : u.live_neighbor_count p.1 p.2 with
      | none => rw [h2] at h; exact absurd h (by simp)
      | some n =>
          rw [h2] at h
          simp only [Option.bind_eq_bind, Option.some_bind] at h
          unfold bvSet at h
          split at h
          · cases h
            simp [List.length_set]
          · exact absurd h (by simp)

lemma tick_fold_some {u : Universe} : ∀ {L : List (Nat × Nat)}
    {acc acc' : List Bool},
    List.foldlM (u.tickStep) acc L = some acc' → acc'.length = acc.length := by
  intro L
  induction L with
  | nil =>
      intro acc acc' h
      cases h
      rfl
  | cons p L ih =>
      intro acc acc' h
      rw [List.foldlM_cons] at h
      cases hstep : u.tickStep acc p with
      | none => rw [hstep] at h; exact absurd h (by simp)
      | some acc₁ =>
          rw [hstep] at h
          exact (ih (by simpa using h)).trans (tickStep_some hstep)

lemma tick_some {u u' : Universe} (h : u.tick = some u') :
    u'.width = u.width ∧ u'.height = u.height ∧
      u'.cells.length = u.cells.length := by
  unfold Universe.tick at h
  cases hfold : List.foldlM (u.tickStep) u.cells u.tickPairs with
  | none => rw [hfold] at h; exact absurd h (by simp)
  | some next =>
      rw [hfold] at h
      cases h
      exact ⟨rfl, rfl, tick_fold_some hfold⟩

lemma applyOp_invariant {u u' : Universe} {op : GridOp}
    (hinv : u.cells.length = u.width * u.height)
    (h : applyOp u op = some u') :
    u'.cells.length = u'.width * u'.height := by
  cases op with
  | setW w =>
      cases h
      simp [Universe.set_width]
  | setH hh =>
      cases h
      simp [Universe.set_height]
  | seed l =>
      obtain ⟨e1, e2, e3⟩ := set_cells_some h
      rw [e1, e2, e3, hinv]
  | step =>
      obtain ⟨e1, e2, e3⟩ := tick_some h
      rw [e1, e2, e3, hinv]

/-- C9 (confirmed): `new(height, width)` allocates exactly
`width * height` dead cells, and the invariant "store length equals the
current `width * height`" holds after any sequence of `set_width`,
`set_height`, `set_cells` and `tick` calls that completes without
aborting. -/
theorem store_length_invariant (h w : Nat) (ops : List GridOp)
    (u' : Universe) (hrun : runOps (Universe.new h w) ops = some u') :
    (Universe.new h w).cells = List.replicate (w * h) false ∧
    u'.cells.length = u'.width * u'.height := by
  refine ⟨rfl, ?_⟩
  have hnew : (Universe.new h w).cells.length =
      (Universe.new h w).width * (Universe.new h w).height := by
    simp [Universe.new]
  revert hrun hnew
  generalize Universe.new h w = u
  intro hrun hnew
  induction ops generalizing u with
  | nil =>
      cases hrun
      exact hnew
  | cons op ops ih =>
      unfold runOps at hrun
      rw [List.foldlM_cons] at hrun
      cases hop : applyOp u op with
      | none => rw [hop] at hrun; exact absurd hrun (by simp)
      | some u₁ =>
          rw [hop] at hrun
          exact ih u₁ (by simpa using hrun) (applyOp_invariant hnew hop)

/-- Witness for C9: a seed followed by a tick on the 2×2 grid preserves
the invariant. -/
theorem store_length_invariant_witness :
    (Universe.new 2 2).cells = List.replicate (2 * 2) false ∧
    (⟨2, 2, [false, false, false, false]⟩ : Universe).cells.length =
      (⟨2, 2, [false, false, false, false]⟩ : Universe).width *
        (⟨2, 2, [false, false, false, false]⟩ : Universe).height :=
  store_length_invariant 2 2 [.seed [(0, 0), (1, 1)], .step]
    ⟨2, 2, [false, false, false, false]⟩ (by decide)

end GameOfLife
